import Mathlib

/-!
Shallow embedding of `src/report_cli.py` (ThousandEyes Reports Helper).

The report document is JSON-shaped data: a dict with a `widgets` list; each
widget optionally carries a `numberCards` list of cards and/or a direct
`filters` dict; each card optionally carries a `filters` dict.  A filter map
sends field names to lists of value strings.  Remaining JSON fields that the
transforms never inspect are modelled by an opaque `extra` association list on
every node.

Python dicts preserve insertion order, so a filter map is an ordered
association list.  A dict comprehension maps over entries in order; `d[k] = v`
updates in place when `k` is present and appends otherwise; `del d[k]` removes
the entry; `k in d` is key membership.

An uncaught `KeyError` (a card without a `filters` entry) is modelled by
`Option`: `none` means the Python call raised.  The partially mutated deep
copy that the exception abandons is unobservable, so all-or-nothing `Option`
is faithful.  `print` output relevant to the claims (the unsupported-code
message) is returned alongside the result.
-/

abbrev FilterValues := List String

abbrev FilterMap := List (String × FilterValues)

structure Card where
  filters : Option FilterMap
  extra : List (String × String)
deriving DecidableEq

structure Widget where
  numberCards : Option (List Card)
  filters : Option FilterMap
  extra : List (String × String)
deriving DecidableEq

structure Report where
  widgets : List Widget
  extra : List (String × String)
deriving DecidableEq

/-- `self.PERSISTENT_FILTERS = {'Connection', 'Platform'}` (report_cli.py:33). -/
def PERSISTENT_FILTERS : List String := ["Connection", "Platform"]

/-- `self.filter_code_to_name_map` (report_cli.py:34-41) as a lookup function:
`code in map` / `map[code]` is exactly this case split. -/
def filter_code_to_name_map (code : String) : Option String :=
  if code = "ea" then some "Endpoint Agents"
  else if code = "eal" then some "Endpoint Agent Labels"
  else if code = "loc" then some "Location"
  else if code = "pn" then some "Private Network"
  else if code = "net" then some "Network"
  else if code = "mn" then some "Monitored Network"
  else none

/-- Key list of a filter map (Python `dict.keys()`, in insertion order). -/
def mapKeys (m : FilterMap) : List String := m.map Prod.fst

/-- Python `k in d` on a filter map. -/
def hasKey (m : FilterMap) (k : String) : Bool := (m.lookup k).isSome

/-- A Python dict comprehension `{k: f(k, v) for k, v in m.items()}`: map over
the entries in insertion order, keys untouched. -/
def mapVal (f : String → FilterValues → FilterValues) (m : FilterMap) : FilterMap :=
  m.map fun kv => (kv.1, f kv.1 kv.2)

/-- `{k: v if k in self.PERSISTENT_FILTERS else [] for k, v in m.items()}`
(report_cli.py:48-49, 51-52). -/
def templatizeMap (m : FilterMap) : FilterMap :=
  mapVal (fun k v => if k ∈ PERSISTENT_FILTERS then v else []) m

/-- `{k: new_filter_values if k == filter_name else v for k, v in m.items()}`
(report_cli.py:66-67, 69-70). -/
def changeMap (name : String) (vals : FilterValues) (m : FilterMap) : FilterMap :=
  mapVal (fun k v => if k = name then vals else v) m

/-- `m[filter_name] = new_filter_values` (report_cli.py:84, 86): in-place
update when the key is present, append otherwise. -/
def setMap (name : String) (vals : FilterValues) (m : FilterMap) : FilterMap :=
  if hasKey m name then mapVal (fun k v => if k = name then vals else v) m
  else m ++ [(name, vals)]

/-- `if filter_name in m: del m[filter_name]` (report_cli.py:100-101, 103-104). -/
def removeMap (name : String) (m : FilterMap) : FilterMap :=
  if hasKey m name then m.filter fun kv => kv.1 != name else m

/-- Monadic map over `Option`, written out so the all-or-nothing loop is
transparent to the kernel. -/
def optMap {α β : Type} (f : α → Option β) : List α → Option (List β)
  | [] => some []
  | a :: as =>
    match f a, optMap f as with
    | some b, some bs => some (b :: bs)
    | _, _ => none

/-- The `filters` update on one card via the visitor; `none` is the
`KeyError` raised when the card has no `filters` entry. -/
def walkCard (g : FilterMap → FilterMap) (c : Card) : Option Card :=
  match c.filters with
  | some m => some { c with filters := some (g m) }
  | none => none

/-- One widget of the shared traversal shape of all four parser methods:
`if numberCards in w: for c in w[numberCards] ... elif filters in w ...`
(report_cli.py:45-52, 63-70, 81-86, 97-104). -/
def walkWidget (g : FilterMap → FilterMap) (w : Widget) : Option Widget :=
  match w.numberCards with
  | some cards => (optMap (walkCard g) cards).map fun cs => { w with numberCards := some cs }
  | none =>
    match w.filters with
    | some m => some { w with filters := some (g m) }
    | none => some w

/-- `report = copy.deepcopy(raw_report)` followed by the loop over the
widgets of the copy: the whole-document traversal shared by the four parser
methods.  Deep copy is the identity on values. -/
def walk (g : FilterMap → FilterMap) (d : Report) : Option Report :=
  (optMap (walkWidget g) d.widgets).map fun ws => { d with widgets := ws }

/-- `ReportParser.get_template_report` (report_cli.py:43-53). -/
def get_template_report (raw_report : Report) : Option Report :=
  walk templatizeMap raw_report

/-- The f-string message printed for an unregistered code (report_cli.py:57). -/
def unsupportedMsg (filter_code : String) : String :=
  "The filter code " ++ filter_code ++ " is not supported\n"

/-- `ReportParser.change_filter_value` (report_cli.py:55-71).  The second
component is the printed unsupported-code message, if any. -/
def change_filter_value (raw_report : Report) (filter_code : String)
    (new_filter_values : FilterValues) : Option Report × Option String :=
  match filter_code_to_name_map filter_code with
  | none => (some raw_report, some (unsupportedMsg filter_code))
  | some filter_name => (walk (changeMap filter_name new_filter_values) raw_report, none)

/-- `ReportParser.add_filter_value` (report_cli.py:73-87). -/
def add_filter_value (raw_report : Report) (filter_code : String)
    (new_filter_values : FilterValues) : Option Report × Option String :=
  match filter_code_to_name_map filter_code with
  | none => (some raw_report, some (unsupportedMsg filter_code))
  | some filter_name => (walk (setMap filter_name new_filter_values) raw_report, none)

/-- `ReportParser.remove_filter` (report_cli.py:89-106). -/
def remove_filter (raw_report : Report) (filter_code : String) :
    Option Report × Option String :=
  match filter_code_to_name_map filter_code with
  | none => (some raw_report, some (unsupportedMsg filter_code))
  | some filter_name => (walk (removeMap filter_name) raw_report, none)

/-- The code points at which Python `str.splitlines()` breaks a line:
`\n`, `\r`, `\x0b` (VT), `\x0c` (FF), `\x1c`..`\x1e` (FS, GS, RS), `\x85`
(NEL), U+2028 (LS), U+2029 (PS).  The pair `\r\n` counts as one boundary
and is handled in `splitlinesPy` itself. -/
def isLineBoundary (c : Char) : Bool :=
  c == '\n' || c == '\r' || c == '\x0b' || c == '\x0c' || c == '\x1c' ||
  c == '\x1d' || c == '\x1e' || c == '\x85' || c == '\u2028' || c == '\u2029'

/-- Python `str.splitlines()`: one element per line, split at each boundary
code point, `\r\n` taken as a single boundary, and a trailing boundary
terminating the last line without opening a new one. -/
def splitlinesPy : List Char → List (List Char)
  | [] => []
  | c :: cs =>
    if isLineBoundary c then
      match cs with
      | [] => [[]]
      | d :: rest =>
        if c = '\r' ∧ d = '\n' then [] :: splitlinesPy rest
        else [] :: splitlinesPy (d :: rest)
    else
      match splitlinesPy cs with
      | [] => [[c]]
      | l :: ls => (c :: l) :: ls

/-- The characters Python `str.strip()` removes (`str.isspace()`): code points
9..13, 28..32, 0x85, 0xa0, 0x1680, 0x2000..0x200a, 0x2028, 0x2029, 0x202f,
0x205f and 0x3000. -/
def isPySpace (c : Char) : Bool :=
  (9 ≤ c.toNat && c.toNat ≤ 13) || (28 ≤ c.toNat && c.toNat ≤ 32) ||
  c.toNat == 133 || c.toNat == 160 || c.toNat == 5760 ||
  (8192 ≤ c.toNat && c.toNat ≤ 8202) ||
  c.toNat == 8232 || c.toNat == 8233 || c.toNat == 8239 || c.toNat == 8287 ||
  c.toNat == 12288

/-- Python `str.strip()`: drop leading and trailing whitespace. -/
def stripPy (l : List Char) : List Char :=
  ((l.dropWhile isPySpace).reverse.dropWhile isPySpace).reverse

/-- `list(map(lambda x: x.strip(), f.read().splitlines()))` (report_cli.py:415).
`content` is the string `f.read()` returns; the file is opened in text mode,
so universal-newline translation has already replaced `\r\n` and lone `\r` by
`\n` and the content contains no carriage return. -/
def readFilterValues (content : List Char) : List String :=
  (splitlinesPy content).map fun l => String.mk (stripPy l)

/-- Python `str.lower()` on the λ-code-point level (ASCII letters; other
characters are unchanged, matching `Char.toLower`). -/
def strLower (s : String) : String := String.mk (s.data.map Char.toLower)

/-- Python `str.upper()` (ASCII). -/
def strUpper (s : String) : String := String.mk (s.data.map Char.toUpper)

/-- Terminal outcome of one orchestrator invocation. -/
inductive UpdateOutcome where
  | notFound
  | submitted (r : Report)
  | idle
  | crashed
deriving DecidableEq

/-- `ReportCli.update_report_filter` (report_cli.py:407-423) from the fetch
result on: read the values file, run the parser function on the lowercased
code, POST exactly when the result differs from the fetched document. -/
def update_report_filter (fetched : Option Report) (filter_code : String)
    (fileContent : List Char)
    (f : Report → String → FilterValues → Option Report × Option String) :
    UpdateOutcome × Option String :=
  match fetched with
  | none => (.notFound, none)
  | some raw_report =>
    let values := readFilterValues fileContent
    match f raw_report (strLower filter_code) values with
    | (none, msg) => (.crashed, msg)
    | (some new_report, msg) =>
      if new_report ≠ raw_report then (.submitted new_report, msg) else (.idle, msg)

/-- `ReportCli.do_remove_filter` (report_cli.py:315-327) from the fetch result
on: run `remove_filter` on the lowercased code, POST exactly on change. -/
def do_remove_filter (fetched : Option Report) (filter_code : String) :
    UpdateOutcome × Option String :=
  match fetched with
  | none => (.notFound, none)
  | some raw_report =>
    match remove_filter raw_report (strLower filter_code) with
    | (none, msg) => (.crashed, msg)
    | (some new_report, msg) =>
      if new_report ≠ raw_report then (.submitted new_report, msg) else (.idle, msg)

/-- Well-formedness from the data model of the spec: every card of a composite
widget carries its own filter map. -/
def WellFormed (d : Report) : Bool :=
  d.widgets.all fun w =>
    match w.numberCards with
    | some cs => cs.all fun c => c.filters.isSome
    | none => true

/-! ### Relational lifting through the walker

`ReportRelP P d d'` says `d'` arises from `d` by replacing each *visited*
filter map `m` (the direct map of a simple widget, the map of each card of a
composite widget) by some `m'` with `P m m'`, everything else unchanged —
including widget order, card order, the untouched direct map of a composite
widget, and all `extra` payload. -/

def CardRelP (P : FilterMap → FilterMap → Prop) (c c' : Card) : Prop :=
  c'.extra = c.extra ∧
  match c.filters, c'.filters with
  | some m, some m' => P m m'
  | none, none => True
  | _, _ => False

def WidgetRelP (P : FilterMap → FilterMap → Prop) (w w' : Widget) : Prop :=
  w'.extra = w.extra ∧
  match w.numberCards, w'.numberCards with
  | some cs, some cs' => List.Forall₂ (CardRelP P) cs cs' ∧ w'.filters = w.filters
  | none, none =>
    match w.filters, w'.filters with
    | some m, some m' => P m m'
    | none, none => True
    | _, _ => False
  | _, _ => False

def ReportRelP (P : FilterMap → FilterMap → Prop) (d d' : Report) : Prop :=
  d'.extra = d.extra ∧ List.Forall₂ (WidgetRelP P) d.widgets d'.widgets

/-- What the spec demands of templatize on one filter map: same keys, the two
persistent keys keep their values, every other present key goes to `[]`. -/
def TemplatizedFrom (m m' : FilterMap) : Prop :=
  mapKeys m' = mapKeys m ∧
  (∀ k ∈ PERSISTENT_FILTERS, m'.lookup k = m.lookup k) ∧
  (∀ k, k ∉ PERSISTENT_FILTERS → k ∈ mapKeys m → m'.lookup k = some [])

/-- How an operation may change the key list of a visited filter map. -/
inductive KeyMode where
  | same
  | remove
  | add

def KeysRel : KeyMode → String → List String → List String → Prop
  | .same, _, ks, ks' => ks' = ks
  | .remove, t, ks, ks' => ks' = ks.filter fun k => k != t
  | .add, t, ks, ks' => ks' = ks ∨ ks' = ks ++ [t]

/-- Shape preservation of a whole document: widget order, card order and all
non-filter structure unchanged; visited key lists change only as `mode` at the
targeted key allows. -/
def SameShape (mode : KeyMode) (t : String) : Report → Report → Prop :=
  ReportRelP fun m m' => KeysRel mode t (mapKeys m) (mapKeys m')

/-- The `"Connection"`/`"Platform"` entries of a filter map, in order. -/
def persistMap (m : FilterMap) : FilterMap :=
  m.filter fun kv => decide (kv.1 ∈ PERSISTENT_FILTERS)

def PersistPreserved (m m' : FilterMap) : Prop := persistMap m' = persistMap m

/-- A file content assembled from boundary-terminated lines followed by an
optional unterminated final line: each pair is the text of one line and its
one-character line boundary.  Every carriage-return-free content decomposes
this way, and text-mode reading (universal newlines) leaves no carriage
return in the content. -/
def assembleLines : List (List Char × Char) → List Char → List Char
  | [], last => last
  | p :: ps, last => p.1 ++ p.2 :: assembleLines ps last

/-! Concrete documents used by the witnesses: one simple widget, one composite
widget with two cards, one widget with neither shape. -/

def exCard1 : Card :=
  { filters := some [("Platform", ["p1"]), ("Endpoint Agents", ["a0"])], extra := [("t", "c1")] }

def exCard2 : Card :=
  { filters := some [("Location", ["berlin"])], extra := [("t", "c2")] }

def exSimple : Widget :=
  { numberCards := none,
    filters := some [("Connection", ["x"]), ("Location", ["y"])],
    extra := [("title", "w1")] }

def exComposite : Widget :=
  { numberCards := some [exCard1, exCard2], filters := none, extra := [("title", "w2")] }

def exBare : Widget := { numberCards := none, filters := none, extra := [("title", "w3")] }

def exD : Report := { widgets := [exSimple, exComposite, exBare], extra := [("reportName", "r")] }

/-- `exD` after templatize. -/
def exDT : Report :=
  { widgets :=
      [{ numberCards := none,
         filters := some [("Connection", ["x"]), ("Location", [])],
         extra := [("title", "w1")] },
       { numberCards :=
           some [{ filters := some [("Platform", ["p1"]), ("Endpoint Agents", [])],
                   extra := [("t", "c1")] },
                 { filters := some [("Location", [])], extra := [("t", "c2")] }],
         filters := none, extra := [("title", "w2")] },
       exBare],
    extra := [("reportName", "r")] }

/-- `exD` after remove-filter on code `"loc"`. -/
def exDR : Report :=
  { widgets :=
      [{ numberCards := none,
         filters := some [("Connection", ["x"])],
         extra := [("title", "w1")] },
       { numberCards :=
           some [exCard1, { filters := some [], extra := [("t", "c2")] }],
         filters := none, extra := [("title", "w2")] },
       exBare],
    extra := [("reportName", "r")] }

/-- `exD` after add-values on code `"ea"` with values `["a1", "a2"]`. -/
def exDA : Report :=
  { widgets :=
      [{ numberCards := none,
         filters := some [("Connection", ["x"]), ("Location", ["y"]),
                          ("Endpoint Agents", ["a1", "a2"])],
         extra := [("title", "w1")] },
       { numberCards :=
           some [{ filters := some [("Platform", ["p1"]), ("Endpoint Agents", ["a1", "a2"])],
                   extra := [("t", "c1")] },
                 { filters := some [("Location", ["berlin"]), ("Endpoint Agents", ["a1", "a2"])],
                   extra := [("t", "c2")] }],
         filters := none, extra := [("title", "w2")] },
       exBare],
    extra := [("reportName", "r")] }

theorem optMap_forall₂ {α β : Type} {f : α → Option β} :
    ∀ {l : List α} {l' : List β}, optMap f l = some l' →
      List.Forall₂ (fun a b => f a = some b) l l'
  | [], l', h => by
    simp only [optMap, Option.some.injEq] at h
    subst h; exact List.Forall₂.nil
  | a :: as, l', h => by
    simp only [optMap] at h
    cases hfa : f a with
    | none => rw [hfa] at h; exact absurd h (by simp)
    | some b =>
      rw [hfa] at h
      cases hrest : optMap f as with
      | none => rw [hrest] at h; exact absurd h (by simp)
      | some bs =>
        rw [hrest] at h
        simp only [Option.some.injEq] at h
        subst h
        exact List.Forall₂.cons hfa (optMap_forall₂ hrest)

theorem optMap_isSome {α β : Type} {f : α → Option β} :
    ∀ {l : List α}, (∀ a ∈ l, (f a).isSome) → (optMap f l).isSome
  | [], _ => by simp [optMap]
  | a :: as, h => by
    have ha : (f a).isSome := h a (List.mem_cons_self a as)
    have has : (optMap f as).isSome := optMap_isSome fun x hx => h x (List.mem_cons_of_mem a hx)
    simp only [optMap]
    cases hfa : f a with
    | none => rw [hfa] at ha; exact absurd ha (by simp)
    | some b =>
      cases hrest : optMap f as with
      | none => rw [hrest] at has; exact absurd has (by simp)
      | some bs => simp

theorem walkCard_rel {P : FilterMap → FilterMap → Prop} {g : FilterMap → FilterMap}
    (hg : ∀ m, P m (g m)) {c c' : Card} (h : walkCard g c = some c') :
    CardRelP P c c' := by
  cases c with
  | mk cf ce =>
    cases cf with
    | none => simp [walkCard] at h
    | some m =>
      simp only [walkCard, Option.some.injEq] at h
      subst h
      exact ⟨rfl, hg m⟩

theorem walkWidget_rel {P : FilterMap → FilterMap → Prop} {g : FilterMap → FilterMap}
    (hg : ∀ m, P m (g m)) {w w' : Widget} (h : walkWidget g w = some w') :
    WidgetRelP P w w' := by
  cases w with
  | mk wn wf we =>
    cases wn with
    | some cards =>
      simp only [walkWidget, Option.map_eq_some'] at h
      obtain ⟨cs, hcs, rfl⟩ := h
      refine ⟨rfl, ?_, rfl⟩
      exact (optMap_forall₂ hcs).imp fun _ _ hab => walkCard_rel hg hab
    | none =>
      cases wf with
      | some m =>
        simp only [walkWidget, Option.some.injEq] at h
        subst h
        exact ⟨rfl, hg m⟩
      | none =>
        simp only [walkWidget, Option.some.injEq] at h
        subst h
        exact ⟨rfl, trivial⟩

theorem walk_rel {P : FilterMap → FilterMap → Prop} {g : FilterMap → FilterMap}
    (hg : ∀ m, P m (g m)) {d d' : Report} (h : walk g d = some d') :
    ReportRelP P d d' := by
  cases d with
  | mk ws de =>
    simp only [walk, Option.map_eq_some'] at h
    obtain ⟨ws', hws, rfl⟩ := h
    exact ⟨rfl, (optMap_forall₂ hws).imp fun _ _ hab => walkWidget_rel hg hab⟩

theorem ReportRelP_refl {P : FilterMap → FilterMap → Prop} (hP : ∀ m, P m m)
    (d : Report) : ReportRelP P d d := by
  refine ⟨rfl, ?_⟩
  refine List.forall₂_same.mpr fun w _ => ⟨rfl, ?_⟩
  cases hn : w.numberCards with
  | some cs => exact ⟨List.forall₂_same.mpr fun c _ => ⟨rfl, by cases c.filters <;> simp [hP]⟩, rfl⟩
  | none => cases w.filters <;> simp [hP]

/-! ### Totality and idempotence of the walker -/

theorem walkWidget_isSome {g : FilterMap → FilterMap} {w : Widget}
    (h : ∀ cs, w.numberCards = some cs → ∀ c ∈ cs, c.filters.isSome) :
    (walkWidget g w).isSome := by
  cases hn : w.numberCards with
  | some cards =>
    simp only [walkWidget, hn]
    have : (optMap (walkCard g) cards).isSome := by
      refine optMap_isSome fun c hc => ?_
      have := h cards hn c hc
      cases hcf : c.filters with
      | none => rw [hcf] at this; exact absurd this (by simp)
      | some m => simp [walkCard, hcf]
    cases hopt : optMap (walkCard g) cards with
    | none => rw [hopt] at this; exact absurd this (by simp)
    | some cs => simp
  | none =>
    cases hf : w.filters <;> simp [walkWidget, hn, hf]

theorem walk_isSome {g : FilterMap → FilterMap} {d : Report}
    (h : WellFormed d = true) : (walk g d).isSome := by
  have : (optMap (walkWidget g) d.widgets).isSome := by
    refine optMap_isSome fun w hw => ?_
    refine walkWidget_isSome fun cs hcs c hc => ?_
    have hall := (List.all_eq_true.mp h) w hw
    rw [hcs] at hall
    exact List.all_eq_true.mp hall c hc
  cases hopt : optMap (walkWidget g) d.widgets with
  | none => rw [hopt] at this; exact absurd this (by simp)
  | some ws => simp [walk, hopt]

theorem optMap_fixed {α : Type} {f : α → Option α}
    (hf : ∀ a b, f a = some b → f b = some b) :
    ∀ {l l' : List α}, optMap f l = some l' → optMap f l' = some l' := by
  intro l l' h
  have h2 := optMap_forall₂ h
  clear h
  induction h2 with
  | nil => rfl
  | cons hab _ ih => simp only [optMap, hf _ _ hab, ih]

theorem walkCard_idem {g : FilterMap → FilterMap} (hg : ∀ m, g (g m) = g m)
    {c c' : Card} (h : walkCard g c = some c') : walkCard g c' = some c' := by
  cases c with
  | mk cf ce =>
    cases cf with
    | none => simp [walkCard] at h
    | some m =>
      simp only [walkCard, Option.some.injEq] at h
      subst h
      simp [walkCard, hg]

theorem walkWidget_idem {g : FilterMap → FilterMap} (hg : ∀ m, g (g m) = g m)
    {w w' : Widget} (h : walkWidget g w = some w') : walkWidget g w' = some w' := by
  cases w with
  | mk wn wf we =>
    cases wn with
    | some cards =>
      simp only [walkWidget, Option.map_eq_some'] at h
      obtain ⟨cs, hcs, rfl⟩ := h
      simp only [walkWidget]
      rw [optMap_fixed (fun a b hab => walkCard_idem hg hab) hcs]
      rfl
    | none =>
      cases wf with
      | some m =>
        simp only [walkWidget, Option.some.injEq] at h
        subst h
        simp [walkWidget, hg]
      | none =>
        simp only [walkWidget, Option.some.injEq] at h
        subst h
        simp [walkWidget]

theorem walk_idem {g : FilterMap → FilterMap} (hg : ∀ m, g (g m) = g m)
    {d d' : Report} (h : walk g d = some d') : walk g d' = some d' := by
  cases d with
  | mk ws de =>
    simp only [walk, Option.map_eq_some'] at h
    obtain ⟨ws', hws, rfl⟩ := h
    simp only [walk]
    rw [optMap_fixed (fun a b hab => walkWidget_idem hg hab) hws]
    rfl

/-! ### Association-list lemmas for the four map visitors -/

theorem lookup_mapVal (f : String → FilterValues → FilterValues) (m : FilterMap) (k : String) :
    (mapVal f m).lookup k = (m.lookup k).map (f k) := by
  induction m with
  | nil => rfl
  | cons kv tl ih =>
    by_cases hk : k = kv.1
    · subst hk; simp [mapVal, List.lookup]
    · simp only [mapVal, List.map_cons, List.lookup, beq_false_of_ne hk] at ih ⊢
      exact ih

theorem mapKeys_mapVal (f : String → FilterValues → FilterValues) (m : FilterMap) :
    mapKeys (mapVal f m) = mapKeys m := by
  simp [mapVal, mapKeys, List.map_map, Function.comp_def]

theorem lookup_isSome_iff_mem_keys (m : FilterMap) (k : String) :
    (m.lookup k).isSome ↔ k ∈ mapKeys m := by
  induction m with
  | nil => simp [mapKeys, List.lookup]
  | cons kv tl ih =>
    by_cases hk : k = kv.1
    · subst hk; simp [List.lookup, mapKeys]
    · simp [List.lookup, beq_false_of_ne hk, mapKeys, hk, ih]

theorem hasKey_iff_mem_keys (m : FilterMap) (k : String) :
    hasKey m k = true ↔ k ∈ mapKeys m := by
  rw [hasKey]; exact lookup_isSome_iff_mem_keys m k

theorem lookup_filter_ne (m : FilterMap) (n : String) :
    (m.filter fun kv => kv.1 != n).lookup n = none := by
  induction m with
  | nil => rfl
  | cons kv tl ih =>
    by_cases hk : kv.1 = n
    · have h1 : (kv.1 != n) = false := by simp [hk]
      simp [List.filter_cons, h1, ih]
    · have h1 : (kv.1 != n) = true := by simp [hk]
      have h2 : (n == kv.1) = false := beq_false_of_ne (Ne.symm hk)
      simp [List.filter_cons, h1, List.lookup, h2, ih]

theorem lookup_filter_other (m : FilterMap) (n k : String) (hk : k ≠ n) :
    (m.filter fun kv => kv.1 != n).lookup k = m.lookup k := by
  induction m with
  | nil => rfl
  | cons kv tl ih =>
    by_cases hn : kv.1 = n
    · have h1 : (kv.1 != n) = false := by simp [hn]
      have h2 : (k == kv.1) = false := beq_false_of_ne (by rw [hn]; exact hk)
      simp [List.filter_cons, h1, List.lookup, h2, ih]
    · have h1 : (kv.1 != n) = true := by simp [hn]
      by_cases hkk : k = kv.1
      · subst hkk; simp [List.filter_cons, h1, List.lookup]
      · have h2 : (k == kv.1) = false := beq_false_of_ne hkk
        simp [List.filter_cons, h1, List.lookup, h2, ih]

theorem mapKeys_filter_ne (m : FilterMap) (n : String) :
    mapKeys (m.filter fun kv => kv.1 != n) = (mapKeys m).filter fun k => k != n := by
  induction m with
  | nil => rfl
  | cons kv tl ih =>
    by_cases hn : kv.1 = n
    · have h1 : (kv.1 != n) = false := by simp [hn]
      simpa [List.filter_cons, mapKeys, h1] using ih
    · have h1 : (kv.1 != n) = true := by simp [hn]
      simpa [List.filter_cons, mapKeys, h1] using ih

theorem filter_ne_eq_self_of_not_mem (m : FilterMap) (n : String) (h : n ∉ mapKeys m) :
    (m.filter fun kv => kv.1 != n) = m := by
  refine List.filter_eq_self.mpr fun kv hkv => ?_
  have : kv.1 ∈ mapKeys m := List.mem_map_of_mem Prod.fst hkv
  simp only [bne_iff_ne, ne_eq, decide_eq_true_eq]
  exact fun he => h (he ▸ this)

theorem lookup_append_of_none {m m' : FilterMap} {k : String} (h : m.lookup k = none) :
    (m ++ m').lookup k = m'.lookup k := by
  induction m with
  | nil => rfl
  | cons kv tl ih =>
    by_cases hk : k = kv.1
    · subst hk; simp [List.lookup] at h
    · simp only [List.lookup, beq_false_of_ne hk] at h
      simp only [List.cons_append, List.lookup, beq_false_of_ne hk]
      exact ih h

theorem lookup_append_singleton_other (m : FilterMap) (name k : String) (vals : FilterValues)
    (hk : k ≠ name) : (m ++ [(name, vals)]).lookup k = m.lookup k := by
  induction m with
  | nil => simp [List.lookup, beq_false_of_ne hk]
  | cons kv tl ih =>
    by_cases hkk : k = kv.1
    · subst hkk; simp [List.lookup]
    · simp only [List.cons_append, List.lookup, beq_false_of_ne hkk]
      exact ih

theorem mapVal_eq_self (f : String → FilterValues → FilterValues) (m : FilterMap)
    (hm : ∀ kv ∈ m, f kv.1 kv.2 = kv.2) : mapVal f m = m := by
  induction m with
  | nil => rfl
  | cons kv tl ih =>
    simp only [mapVal, List.map_cons, hm kv (List.mem_cons_self kv tl)]
    have := ih fun x hx => hm x (List.mem_cons_of_mem kv hx)
    simp only [mapVal] at this
    rw [this]

/-! ### The four visitors, pointwise -/

theorem templatizeMap_keys (m : FilterMap) : mapKeys (templatizeMap m) = mapKeys m :=
  mapKeys_mapVal _ m

theorem templatizeMap_lookup (m : FilterMap) (k : String) :
    (templatizeMap m).lookup k =
      (m.lookup k).map fun v => if k ∈ PERSISTENT_FILTERS then v else [] :=
  lookup_mapVal _ m k

theorem templatizeMap_idem (m : FilterMap) : templatizeMap (templatizeMap m) = templatizeMap m := by
  simp only [templatizeMap, mapVal, List.map_map]
  refine List.map_congr_left fun kv _ => ?_
  by_cases hk : kv.1 ∈ PERSISTENT_FILTERS <;> simp [Function.comp_def, hk]

theorem changeMap_keys (name : String) (vals : FilterValues) (m : FilterMap) :
    mapKeys (changeMap name vals m) = mapKeys m :=
  mapKeys_mapVal _ m

theorem changeMap_lookup (name : String) (vals : FilterValues) (m : FilterMap) (k : String) :
    (changeMap name vals m).lookup k = (m.lookup k).map fun v => if k = name then vals else v :=
  lookup_mapVal _ m k

theorem changeMap_of_not_mem (name : String) (vals : FilterValues) (m : FilterMap)
    (h : name ∉ mapKeys m) : changeMap name vals m = m := by
  refine mapVal_eq_self _ m fun kv hkv => ?_
  have : kv.1 ∈ mapKeys m := List.mem_map_of_mem Prod.fst hkv
  rw [if_neg]
  exact fun he => h (he ▸ this)

theorem setMap_lookup_self (name : String) (vals : FilterValues) (m : FilterMap) :
    (setMap name vals m).lookup name = some vals := by
  by_cases h : hasKey m name = true
  · rw [setMap, if_pos h, lookup_mapVal]
    rw [hasKey] at h
    obtain ⟨v, hv⟩ := Option.isSome_iff_exists.mp h
    simp [hv]
  · rw [setMap, if_neg h]
    rw [hasKey, Option.isSome_iff_exists] at h
    push_neg at h
    have hnone : m.lookup name = none := by
      cases hl : m.lookup name with
      | none => rfl
      | some v => exact absurd hl (h v)
    rw [lookup_append_of_none hnone]
    simp [List.lookup]

theorem setMap_keys (name : String) (vals : FilterValues) (m : FilterMap) :
    mapKeys (setMap name vals m) = mapKeys m ∨
      mapKeys (setMap name vals m) = mapKeys m ++ [name] := by
  by_cases h : hasKey m name = true
  · exact Or.inl (by rw [setMap, if_pos h]; exact mapKeys_mapVal _ m)
  · exact Or.inr (by rw [setMap, if_neg h]; simp [mapKeys])

theorem setMap_of_not_mem (name : String) (vals : FilterValues) (m : FilterMap)
    (h : name ∉ mapKeys m) : setMap name vals m = m ++ [(name, vals)] := by
  rw [setMap, if_neg]
  rw [hasKey_iff_mem_keys]
  exact fun hmem => h hmem

theorem setMap_lookup_other (name : String) (vals : FilterValues) (m : FilterMap)
    (k : String) (hk : k ≠ name) : (setMap name vals m).lookup k = m.lookup k := by
  by_cases h : hasKey m name = true
  · rw [setMap, if_pos h, lookup_mapVal]
    cases m.lookup k <;> simp [hk]
  · rw [setMap, if_neg h]
    exact lookup_append_singleton_other m name k vals hk

theorem removeMap_keys (name : String) (m : FilterMap) :
    mapKeys (removeMap name m) = (mapKeys m).filter fun k => k != name := by
  by_cases h : hasKey m name = true
  · rw [removeMap, if_pos h]; exact mapKeys_filter_ne m name
  · rw [removeMap, if_neg h]
    have hnm : name ∉ mapKeys m := fun hmem => h ((hasKey_iff_mem_keys m name).mpr hmem)
    refine (List.filter_eq_self.mpr fun k hk => ?_).symm
    simp only [bne_iff_ne, ne_eq, decide_eq_true_eq]
    exact fun he => hnm (he ▸ hk)

theorem removeMap_lookup_self (name : String) (m : FilterMap) :
    (removeMap name m).lookup name = none := by
  by_cases h : hasKey m name = true
  · rw [removeMap, if_pos h]; exact lookup_filter_ne m name
  · rw [removeMap, if_neg h]
    rw [hasKey] at h
    cases hl : m.lookup name with
    | none => rfl
    | some v => rw [hl] at h; exact absurd rfl h

theorem removeMap_lookup_other (name : String) (m : FilterMap) (k : String) (hk : k ≠ name) :
    (removeMap name m).lookup k = m.lookup k := by
  by_cases h : hasKey m name = true
  · rw [removeMap, if_pos h]; exact lookup_filter_other m name k hk
  · rw [removeMap, if_neg h]

theorem removeMap_idem (name : String) (m : FilterMap) :
    removeMap name (removeMap name m) = removeMap name m := by
  have : hasKey (removeMap name m) name = false := by
    rw [hasKey, removeMap_lookup_self]; rfl
  rw [removeMap, this]
  simp

/-! ### Per-visitor facts feeding the claims -/

theorem templatizeMap_templatizedFrom (m : FilterMap) : TemplatizedFrom m (templatizeMap m) := by
  refine ⟨templatizeMap_keys m, fun k hk => ?_, fun k hk hmem => ?_⟩
  · rw [templatizeMap, lookup_mapVal]
    cases m.lookup k <;> simp [hk]
  · rw [templatizeMap, lookup_mapVal]
    obtain ⟨v, hv⟩ := Option.isSome_iff_exists.mp ((lookup_isSome_iff_mem_keys m k).mpr hmem)
    simp [hv, hk]

theorem persistMap_templatizeMap (m : FilterMap) :
    persistMap (templatizeMap m) = persistMap m := by
  induction m with
  | nil => rfl
  | cons kv tl ih =>
    by_cases hk : kv.1 ∈ PERSISTENT_FILTERS
    · simpa [templatizeMap, mapVal, persistMap, List.filter_cons, hk] using ih
    · simpa [templatizeMap, mapVal, persistMap, List.filter_cons, hk] using ih

theorem persistMap_mapValIf (name : String) (vals : FilterValues) (m : FilterMap)
    (hn : name ∉ PERSISTENT_FILTERS) :
    persistMap (mapVal (fun k v => if k = name then vals else v) m) = persistMap m := by
  induction m with
  | nil => rfl
  | cons kv tl ih =>
    by_cases hk : kv.1 ∈ PERSISTENT_FILTERS
    · have hne : kv.1 ≠ name := fun he => hn (he ▸ hk)
      simpa [mapVal, persistMap, List.filter_cons, hk, hne] using ih
    · simpa [mapVal, persistMap, List.filter_cons, hk] using ih

theorem persistMap_changeMap (name : String) (vals : FilterValues) (m : FilterMap)
    (hn : name ∉ PERSISTENT_FILTERS) : persistMap (changeMap name vals m) = persistMap m :=
  persistMap_mapValIf name vals m hn

theorem persistMap_filter_ne (name : String) (m : FilterMap)
    (hn : name ∉ PERSISTENT_FILTERS) :
    persistMap (m.filter fun kv => kv.1 != name) = persistMap m := by
  induction m with
  | nil => rfl
  | cons kv tl ih =>
    by_cases hkn : kv.1 = name
    · have h1 : (kv.1 != name) = false := by simp [hkn]
      have h2 : kv.1 ∉ PERSISTENT_FILTERS := hkn ▸ hn
      simpa [persistMap, List.filter_cons, h1, h2] using ih
    · have h1 : (kv.1 != name) = true := by simp [hkn]
      by_cases hk : kv.1 ∈ PERSISTENT_FILTERS
      · simpa [persistMap, List.filter_cons, h1, hk] using ih
      · simpa [persistMap, List.filter_cons, h1, hk] using ih

theorem persistMap_removeMap (name : String) (m : FilterMap)
    (hn : name ∉ PERSISTENT_FILTERS) : persistMap (removeMap name m) = persistMap m := by
  by_cases h : hasKey m name = true
  · rw [removeMap, if_pos h]; exact persistMap_filter_ne name m hn
  · rw [removeMap, if_neg h]

theorem persistMap_setMap (name : String) (vals : FilterValues) (m : FilterMap)
    (hn : name ∉ PERSISTENT_FILTERS) : persistMap (setMap name vals m) = persistMap m := by
  by_cases h : hasKey m name = true
  · rw [setMap, if_pos h]; exact persistMap_mapValIf name vals m hn
  · rw [setMap, if_neg h, persistMap, List.filter_append]
    have : persistMap [(name, vals)] = [] := by simp [persistMap, List.filter_cons, hn]
    rw [persistMap] at this
    rw [this, List.append_nil, persistMap]

/-- Every name the registry can resolve, and none of them is persistent. -/
theorem filter_code_to_name_not_persistent {c n : String}
    (h : filter_code_to_name_map c = some n) : n ≠ "Connection" ∧ n ≠ "Platform" := by
  unfold filter_code_to_name_map at h
  split_ifs at h
  all_goals first
    | exact Option.noConfusion h
    | (injection h with h; subst h; exact ⟨by decide, by decide⟩)

/-! ### Characters: lowercasing after uppercasing -/

theorem char_toNat_ofNat {n : Nat} (h : n < 55296) : (Char.ofNat n).toNat = n := by
  rw [Char.ofNat, dif_pos (Or.inl h)]
  rfl

theorem toLower_toUpper (c : Char) : c.toUpper.toLower = c.toLower := by
  by_cases h : 97 ≤ c.toNat ∧ c.toNat ≤ 122
  · have hup : c.toUpper = Char.ofNat (c.toNat - 32) := by
      simp only [Char.toUpper, ge_iff_le]
      rw [if_pos h]
    have ht : (Char.ofNat (c.toNat - 32)).toNat = c.toNat - 32 := char_toNat_ofNat (by omega)
    have hlow : c.toLower = c := by
      simp only [Char.toLower, ge_iff_le]
      rw [if_neg (by omega)]
    rw [hup, hlow]
    simp only [Char.toLower, ge_iff_le, ht]
    rw [if_pos (by omega)]
    have h32 : c.toNat - 32 + 32 = c.toNat := by omega
    rw [h32, Char.ofNat_toNat]
  · have hup : c.toUpper = c := by
      simp only [Char.toUpper, ge_iff_le]
      rw [if_neg h]
    rw [hup]

theorem strLower_strUpper (s : String) : strLower (strUpper s) = strLower s := by
  show String.mk ((s.data.map Char.toUpper).map Char.toLower) = String.mk (s.data.map Char.toLower)
  rw [List.map_map]
  exact congrArg String.mk (List.map_congr_left fun c _ => by
    simp only [Function.comp_apply]
    exact toLower_toUpper c)

/-! ### Lines -/

theorem splitlinesPy_no_boundary (l : List Char) (hl : ∀ c ∈ l, isLineBoundary c = false) :
    splitlinesPy l = if l = [] then [] else [l] := by
  induction l with
  | nil => rfl
  | cons c cs ih =>
    have hc : isLineBoundary c = false := hl c (List.mem_cons_self c cs)
    have hcs : ∀ x ∈ cs, isLineBoundary x = false :=
      fun x hx => hl x (List.mem_cons_of_mem c hx)
    rw [splitlinesPy.eq_def]
    simp only [hc, Bool.false_eq_true, if_false, ih hcs]
    cases cs with
    | nil => simp
    | cons d ds => simp

theorem splitlinesPy_append_boundary (l : List Char) (b : Char) (cs : List Char)
    (hl : ∀ c ∈ l, isLineBoundary c = false) (hb : isLineBoundary b = true)
    (hbr : b ≠ '\r') :
    splitlinesPy (l ++ b :: cs) = l :: splitlinesPy cs := by
  induction l with
  | nil =>
    rw [List.nil_append, splitlinesPy.eq_def]
    simp only [hb, if_true]
    cases cs with
    | nil => simp [splitlinesPy]
    | cons d rest =>
      have hnd : ¬(b = '\r' ∧ d = '\n') := fun hh => hbr hh.1
      simp [hnd]
  | cons c l' ih =>
    have hc : isLineBoundary c = false := hl c (List.mem_cons_self c l')
    have hl' : ∀ x ∈ l', isLineBoundary x = false :=
      fun x hx => hl x (List.mem_cons_of_mem c hx)
    rw [List.cons_append, splitlinesPy.eq_def]
    simp only [hc, Bool.false_eq_true, if_false, ih hl']

/-! ### The claims -/

/-- C1: on every document it returns normally on, `get_template_report`
replaces every visited filter map by one with the same keys, the persistent
keys `"Connection"` and `"Platform"` bound to their old values, and every
other present key bound to the empty sequence; nothing else changes. -/
theorem C1_templatize_clears_nonpersistent {d d' : Report}
    (h : get_template_report d = some d') : ReportRelP TemplatizedFrom d d' :=
  walk_rel templatizeMap_templatizedFrom h

theorem C1_witness :
    get_template_report exD = some exDT ∧ ReportRelP TemplatizedFrom exD exDT :=
  ⟨by decide, C1_templatize_clears_nonpersistent (by decide)⟩

/-- C2: each of the four transforms keeps widget order, card order and all
non-filter structure, and keeps the key list of every visited filter map unchanged —
except that remove-filter deletes exactly the targeted key and add-values may
append exactly the targeted key. -/
theorem C2_shape_preserved :
    (∀ d d', get_template_report d = some d' → SameShape .same "" d d') ∧
    (∀ d code vals d' msg, change_filter_value d code vals = (some d', msg) →
      SameShape .same "" d d') ∧
    (∀ d code name vals d' msg, filter_code_to_name_map code = some name →
      add_filter_value d code vals = (some d', msg) → SameShape .add name d d') ∧
    (∀ d code name d' msg, filter_code_to_name_map code = some name →
      remove_filter d code = (some d', msg) → SameShape .remove name d d') := by
  refine ⟨?_, ?_, ?_, ?_⟩
  · intro d d' h
    exact walk_rel (fun m => templatizeMap_keys m) h
  · intro d code vals d' msg h
    cases hc : filter_code_to_name_map code with
    | none =>
      simp only [change_filter_value, hc, Prod.mk.injEq, Option.some.injEq] at h
      obtain ⟨h1, -⟩ := h
      subst h1
      refine ReportRelP_refl (fun m => ?_) d
      rfl
    | some name =>
      simp only [change_filter_value, hc, Prod.mk.injEq] at h
      exact walk_rel (fun m => changeMap_keys name vals m) h.1
  · intro d code name vals d' msg hc h
    simp only [add_filter_value, hc, Prod.mk.injEq] at h
    exact walk_rel (fun m => setMap_keys name vals m) h.1
  · intro d code name d' msg hc h
    simp only [remove_filter, hc, Prod.mk.injEq] at h
    exact walk_rel (fun m => removeMap_keys name m) h.1

theorem C2_witness : SameShape .remove "Location" exD exDR :=
  C2_shape_preserved.2.2.2 exD "loc" "Location" exDR none (by decide) (by decide)

/-- C3: after a successful fetch and a normally returning transform, the
orchestrator submits the transformed document exactly when it differs from the
fetched one by structural value comparison, and reaches `Idle` (no write) when
the two compare equal. -/
theorem C3_submit_iff_changed :
    (∀ raw new code content msg
        (f : Report → String → FilterValues → Option Report × Option String),
      f raw (strLower code) (readFilterValues content) = (some new, msg) →
      (((update_report_filter (some raw) code content f).1 = UpdateOutcome.submitted new ↔
          new ≠ raw) ∧
        (new = raw →
          update_report_filter (some raw) code content f = (UpdateOutcome.idle, msg)))) ∧
    (∀ raw new code msg, remove_filter raw (strLower code) = (some new, msg) →
      (((do_remove_filter (some raw) code).1 = UpdateOutcome.submitted new ↔ new ≠ raw) ∧
        (new = raw → do_remove_filter (some raw) code = (UpdateOutcome.idle, msg)))) := by
  constructor
  · intro raw new code content msg f hf
    constructor
    · by_cases hne : new = raw
      · simp [update_report_filter, hf, hne]
      · simp [update_report_filter, hf, hne]
    · intro he
      simp [update_report_filter, hf, he]
  · intro raw new code msg hf
    constructor
    · by_cases hne : new = raw
      · simp [do_remove_filter, hf, hne]
      · simp [do_remove_filter, hf, hne]
    · intro he
      simp [do_remove_filter, hf, he]

theorem C3_witness :
    ((do_remove_filter (some exD) "loc").1 = UpdateOutcome.submitted exDR ↔ exDR ≠ exD) :=
  (C3_submit_iff_changed.2 exD exDR "loc" none (by decide)).1

/-- C4: replace-values rewrites the targeted field where present and is the
identity on maps lacking it, never inserting; add-values binds the targeted
field to the new values in every map, appending it when absent; templatize and
replace add no key and remove-filter only ever drops keys. -/
theorem C4_replace_vs_add :
    (∀ m name vals, mapKeys (changeMap name vals m) = mapKeys m) ∧
    (∀ m name vals, name ∈ mapKeys m → (changeMap name vals m).lookup name = some vals) ∧
    (∀ m name vals, name ∉ mapKeys m → changeMap name vals m = m) ∧
    (∀ m name vals, (setMap name vals m).lookup name = some vals) ∧
    (∀ m name vals, name ∉ mapKeys m → setMap name vals m = m ++ [(name, vals)]) ∧
    (∀ m, mapKeys (templatizeMap m) = mapKeys m) ∧
    (∀ m name, mapKeys (removeMap name m) ⊆ mapKeys m) := by
  refine ⟨fun m n v => changeMap_keys n v m, fun m n v h => ?_,
    fun m n v h => changeMap_of_not_mem n v m h, fun m n v => setMap_lookup_self n v m,
    fun m n v h => setMap_of_not_mem n v m h, templatizeMap_keys, fun m n => ?_⟩
  · rw [changeMap, lookup_mapVal]
    obtain ⟨v', hv⟩ := Option.isSome_iff_exists.mp ((lookup_isSome_iff_mem_keys m n).mpr h)
    simp [hv]
  · rw [removeMap_keys]
    exact (List.filter_sublist _).subset

theorem C4_witness :
    changeMap "Endpoint Agents" ["a1"] [("Location", ["y"])] = [("Location", ["y"])] ∧
    (setMap "Endpoint Agents" ["a1"] [("Location", ["y"])]).lookup "Endpoint Agents" =
      some ["a1"] :=
  ⟨C4_replace_vs_add.2.2.1 [("Location", ["y"])] "Endpoint Agents" ["a1"] (by decide),
   C4_replace_vs_add.2.2.2.1 [("Location", ["y"])] "Endpoint Agents" ["a1"]⟩

/-- C5: an unregistered filter code makes each code-taking operation return
the input document unchanged together with the unsupported-code message, and
the orchestrator then ends `Idle` with that message — no submit, no partial
mutation. -/
theorem C5_unsupported_code :
    (∀ code, filter_code_to_name_map code = none → ∀ d vals,
      change_filter_value d code vals = (some d, some (unsupportedMsg code)) ∧
      add_filter_value d code vals = (some d, some (unsupportedMsg code)) ∧
      remove_filter d code = (some d, some (unsupportedMsg code))) ∧
    (∀ code, filter_code_to_name_map (strLower code) = none → ∀ d content,
      update_report_filter (some d) code content change_filter_value =
        (UpdateOutcome.idle, some (unsupportedMsg (strLower code))) ∧
      update_report_filter (some d) code content add_filter_value =
        (UpdateOutcome.idle, some (unsupportedMsg (strLower code))) ∧
      do_remove_filter (some d) code =
        (UpdateOutcome.idle, some (unsupportedMsg (strLower code)))) := by
  constructor
  · intro code hc d vals
    exact ⟨by simp [change_filter_value, hc], by simp [add_filter_value, hc],
      by simp [remove_filter, hc]⟩
  · intro code hc d content
    refine ⟨?_, ?_, ?_⟩ <;>
      simp [update_report_filter, do_remove_filter, change_filter_value, add_filter_value,
        remove_filter, hc]

theorem C5_witness :
    change_filter_value exD "zz" ["v"] = (some exD, some (unsupportedMsg "zz")) ∧
    do_remove_filter (some exD) "ZZ" =
      (UpdateOutcome.idle, some (unsupportedMsg (strLower "ZZ"))) :=
  ⟨(C5_unsupported_code.1 "zz" (by decide) exD ["v"]).1,
   (C5_unsupported_code.2 "ZZ" (by decide) exD []).2.2⟩

/-- C6, as stated, is false: the entry point strips each line, so the value
produced for the single line `" a"` is `"a"`, not the text of the line unaltered. -/
theorem C6_counterexample :
    splitlinesPy [' ', 'a'] = [[' ', 'a']] ∧
    readFilterValues [' ', 'a'] = ["a"] ∧ ("a" : String) ≠ " a" :=
  ⟨by decide, by decide, by decide⟩

/-- C6 amended: for every content, the entry point turns each line — as
delimited by the line-boundary code points of `str.splitlines()` — into
exactly one value, equal to the text of that line with leading and trailing
whitespace stripped; empty lines are kept as empty-string values, a trailing
boundary opens no extra line, and an unterminated nonempty final line still
contributes its value.  Stated over every decomposition of the content into
boundary-free lines with their boundaries; every carriage-return-free content
— and text-mode reading leaves no carriage return — decomposes this way. -/
theorem C6_lines_are_stripped (parts : List (List Char × Char)) (last : List Char)
    (hline : ∀ p ∈ parts, ∀ c ∈ p.1, isLineBoundary c = false)
    (hterm : ∀ p ∈ parts, isLineBoundary p.2 = true ∧ p.2 ≠ '\r')
    (hlast : ∀ c ∈ last, isLineBoundary c = false) :
    readFilterValues (assembleLines parts last) =
      parts.map (fun p => String.mk (stripPy p.1)) ++
        (if last = [] then [] else [String.mk (stripPy last)]) := by
  induction parts with
  | nil =>
    show readFilterValues last = _
    rw [readFilterValues, splitlinesPy_no_boundary last hlast]
    by_cases he : last = []
    · simp [he]
    · simp [he]
  | cons p ps ih =>
    have h1 := hline p (List.mem_cons_self p ps)
    have h2 := hterm p (List.mem_cons_self p ps)
    show readFilterValues (p.1 ++ p.2 :: assembleLines ps last) = _
    rw [readFilterValues, splitlinesPy_append_boundary p.1 p.2 _ h1 h2.1 h2.2, List.map_cons]
    have ihh := ih (fun q hq => hline q (List.mem_cons_of_mem p hq))
      (fun q hq => hterm q (List.mem_cons_of_mem p hq))
    rw [readFilterValues] at ihh
    rw [ihh, List.map_cons, List.cons_append]

theorem C6_witness :
    readFilterValues (assembleLines [([' ', 'a'], '\x0b'), (['b'], '\n')] []) = ["a", "b"] :=
  (C6_lines_are_stripped [([' ', 'a'], '\x0b'), (['b'], '\n')] []
    (by decide) (by decide) (by decide)).trans (by decide)

/-- C7: both caller-facing code-taking entry points lowercase the code before
resolution, so any two codes with the same lowercasing — in particular a code
and its uppercased form — behave identically. -/
theorem C7_case_insensitive :
    (∀ code, strLower (strUpper code) = strLower code) ∧
    (∀ code₁ code₂, strLower code₁ = strLower code₂ →
      (∀ fetched content f, update_report_filter fetched code₁ content f =
        update_report_filter fetched code₂ content f) ∧
      (∀ fetched, do_remove_filter fetched code₁ = do_remove_filter fetched code₂)) := by
  refine ⟨strLower_strUpper, fun c₁ c₂ h => ⟨fun fetched content f => ?_, fun fetched => ?_⟩⟩
  · cases fetched <;> simp [update_report_filter, h]
  · cases fetched <;> simp [do_remove_filter, h]

theorem C7_witness :
    do_remove_filter (some exD) "LOC" = do_remove_filter (some exD) "loc" :=
  (C7_case_insensitive.2 "LOC" "loc" (by decide)).2 (some exD)

/-- C8: templatize and remove-filter are idempotent on every document they
return normally on (remove-filter with its printed message included). -/
theorem C8_idempotent :
    (∀ d d', get_template_report d = some d' → get_template_report d' = some d') ∧
    (∀ d code d' msg, remove_filter d code = (some d', msg) →
      remove_filter d' code = (some d', msg)) := by
  constructor
  · intro d d' h
    exact walk_idem templatizeMap_idem h
  · intro d code d' msg h
    cases hc : filter_code_to_name_map code with
    | none =>
      simp only [remove_filter, hc, Prod.mk.injEq, Option.some.injEq] at h ⊢
      exact ⟨trivial, h.2⟩
    | some name =>
      simp only [remove_filter, hc, Prod.mk.injEq] at h ⊢
      exact ⟨walk_idem (fun m => removeMap_idem name m) h.1, h.2⟩

theorem C8_witness :
    get_template_report exDT = some exDT ∧ remove_filter exDR "loc" = (some exDR, none) :=
  ⟨C8_idempotent.1 exD exDT (by decide), C8_idempotent.2 exD "loc" exDR none (by decide)⟩

/-- C9: on a well-formed document — every card of a composite widget carries
its own filter map — all four operations return a document normally, for every
code and every value list. -/
theorem C9_total_on_wellformed (d : Report) (h : WellFormed d = true) :
    (get_template_report d).isSome ∧
    (∀ code vals, ((change_filter_value d code vals).1).isSome ∧
      ((add_filter_value d code vals).1).isSome) ∧
    (∀ code, ((remove_filter d code).1).isSome) := by
  refine ⟨walk_isSome h, fun code vals => ⟨?_, ?_⟩, fun code => ?_⟩
  · cases hc : filter_code_to_name_map code with
    | none => simp [change_filter_value, hc]
    | some name => simpa [change_filter_value, hc] using walk_isSome h
  · cases hc : filter_code_to_name_map code with
    | none => simp [add_filter_value, hc]
    | some name => simpa [add_filter_value, hc] using walk_isSome h
  · cases hc : filter_code_to_name_map code with
    | none => simp [remove_filter, hc]
    | some name => simpa [remove_filter, hc] using walk_isSome h

theorem C9_witness :
    (get_template_report exD).isSome ∧ ((remove_filter exD "loc").1).isSome :=
  ⟨(C9_total_on_wellformed exD (by decide)).1,
   (C9_total_on_wellformed exD (by decide)).2.2 "loc"⟩

/-- C10: no registry code resolves to `"Connection"` or `"Platform"`, and all
four operations leave the `"Connection"`/`"Platform"` entries of every visited
filter map (and everything outside the visited maps) unchanged. -/
theorem C10_persistent_untouched :
    (∀ c n, filter_code_to_name_map c = some n → n ≠ "Connection" ∧ n ≠ "Platform") ∧
    (∀ d d', get_template_report d = some d' → ReportRelP PersistPreserved d d') ∧
    (∀ d c vals d' msg, change_filter_value d c vals = (some d', msg) →
      ReportRelP PersistPreserved d d') ∧
    (∀ d c vals d' msg, add_filter_value d c vals = (some d', msg) →
      ReportRelP PersistPreserved d d') ∧
    (∀ d c d' msg, remove_filter d c = (some d', msg) → ReportRelP PersistPreserved d d') := by
  have hnp : ∀ {c n : String}, filter_code_to_name_map c = some n →
      n ∉ PERSISTENT_FILTERS := by
    intro c n h hmem
    obtain ⟨hn1, hn2⟩ := filter_code_to_name_not_persistent h
    simp only [PERSISTENT_FILTERS, List.mem_cons, List.not_mem_nil, or_false] at hmem
    rcases hmem with h' | h'
    · exact hn1 h'
    · exact hn2 h'
  refine ⟨fun c n h => filter_code_to_name_not_persistent h, ?_, ?_, ?_, ?_⟩
  · intro d d' h
    refine walk_rel ?_ h
    exact fun m => persistMap_templatizeMap m
  · intro d c vals d' msg h
    cases hc : filter_code_to_name_map c with
    | none =>
      simp only [change_filter_value, hc, Prod.mk.injEq, Option.some.injEq] at h
      obtain ⟨h1, -⟩ := h
      subst h1
      refine ReportRelP_refl (fun m => ?_) d
      rfl
    | some name =>
      simp only [change_filter_value, hc, Prod.mk.injEq] at h
      refine walk_rel ?_ h.1
      exact fun m => persistMap_changeMap name vals m (hnp hc)
  · intro d c vals d' msg h
    cases hc : filter_code_to_name_map c with
    | none =>
      simp only [add_filter_value, hc, Prod.mk.injEq, Option.some.injEq] at h
      obtain ⟨h1, -⟩ := h
      subst h1
      refine ReportRelP_refl (fun m => ?_) d
      rfl
    | some name =>
      simp only [add_filter_value, hc, Prod.mk.injEq] at h
      refine walk_rel ?_ h.1
      exact fun m => persistMap_setMap name vals m (hnp hc)
  · intro d c d' msg h
    cases hc : filter_code_to_name_map c with
    | none =>
      simp only [remove_filter, hc, Prod.mk.injEq, Option.some.injEq] at h
      obtain ⟨h1, -⟩ := h
      subst h1
      refine ReportRelP_refl (fun m => ?_) d
      rfl
    | some name =>
      simp only [remove_filter, hc, Prod.mk.injEq] at h
      refine walk_rel ?_ h.1
      exact fun m => persistMap_removeMap name m (hnp hc)

theorem C10_witness : ReportRelP PersistPreserved exD exDA :=
  C10_persistent_untouched.2.2.2.1 exD "ea" ["a1", "a2"] exDA none (by decide)
